import Mathlib

/-!
Shallow embedding of the `lsh` shell (src/src/main.c).

Strings of the C program are modelled as `List Char`; a C argument vector
(`char **args`, NULL-terminated) is a `List (List Char)`, where `args[i]`
being NULL corresponds to `args[i]?` being `none`.  Observable output
(stdout/stderr writes, `perror`, child launches) is modelled as a list of
`Effect`s; the mutable process state (working directory, the `history.txt`
file) as an explicit `ShellState` threaded through the handlers.
-/

/-- The delimiter set `LSH_TOK_DELIM " \t\r\n\a"` (space, tab, carriage
return, newline, bell). -/
def lshTokDelim : List Char := [' ', '\t', '\r', '\n', Char.ofNat 7]

/-- Membership in the delimiter set. -/
def isDelim (c : Char) : Bool := lshTokDelim.contains c

/-- The `strtok` loop inside `lsh_split_line`: scan the line, accumulating
the current (reversed) run of non-delimiter characters in `acc`; a delimiter
ends the current token (emitted only if non-empty), and the end of the line
emits the pending token if any.  This is exactly the token sequence that the
`while (token != NULL)` loop stores into the `tokens` array. -/
def splitAux (acc : List Char) : List Char → List (List Char)
  | [] => if acc.isEmpty then [] else [acc.reverse]
  | c :: t =>
    if isDelim c then
      if acc.isEmpty then splitAux [] t else acc.reverse :: splitAux [] t
    else splitAux (c :: acc) t

/-- `lsh_split_line`: split a line into tokens on `LSH_TOK_DELIM`.  The
NULL sentinel terminating the C token array corresponds to the end of the
returned list. -/
def lsh_split_line (line : List Char) : List (List Char) := splitAux [] line

/-- Spec-side tokenizer, stated in the spec's own words: the sequence of
substrings obtained by splitting on the delimiter set, with empty tokens
(from consecutive, leading or trailing delimiters) collapsed away. -/
def tokensSpec (line : List Char) : List (List Char) :=
  (line.splitOnP isDelim).filter (fun t => !t.isEmpty)

/-- ASCII `tolower`, as used by `strcasecmp` on the byte values the shell
compares. -/
def tolowerAscii (c : Char) : Char :=
  if 65 ≤ c.toNat ∧ c.toNat ≤ 90 then Char.ofNat (c.toNat + 32) else c

/-- `strcasecmp(a, b) == 0`: equality after ASCII case folding. -/
def strcaseEq (a b : List Char) : Bool :=
  a.map tolowerAscii == b.map tolowerAscii

/-- One status value delivered by `waitpid` with `WUNTRACED`. -/
inductive WaitStatus where
  | exited (code : Nat)
  | signaled (sig : Nat)
  | stopped (sig : Nat)
  deriving Repr, DecidableEq

/-- `WIFEXITED(status)`. -/
def WIFEXITED : WaitStatus → Bool
  | .exited _ => true
  | _ => false

/-- `WIFSIGNALED(status)`. -/
def WIFSIGNALED : WaitStatus → Bool
  | .signaled _ => true
  | _ => false

/-- `WIFSTOPPED(status)`. -/
def WIFSTOPPED : WaitStatus → Bool
  | .stopped _ => true
  | _ => false

/-- The parent's `do { wpid = waitpid(pid, &status, WUNTRACED); } while
(!WIFEXITED(status) && !WIFSIGNALED(status));` loop, fed the sequence of
statuses that successive `waitpid` calls deliver.  `none` means the event
list was exhausted with the loop still blocked. -/
def waitLoop : List WaitStatus → Option WaitStatus
  | [] => none
  | s :: rest => if WIFEXITED s || WIFSIGNALED s then some s else waitLoop rest

/-- One observable step of the shell process. -/
inductive Effect where
  | out (s : List Char)
  | err (s : List Char)
  | launched (args : List (List Char)) (cwd : List Char)
  | reaped (s : Option WaitStatus)
  deriving Repr, DecidableEq

/-- Effects produced by `lsh_launch` (child spawn and reap), as opposed to
output produced inside a builtin handler. -/
def fromLauncher : Effect → Bool
  | .launched _ _ => true
  | .reaped _ => true
  | _ => false

/-- Process-wide mutable state visible to the shell: the working directory,
the set of directories that exist (`chdir` succeeds exactly on these), and
the contents of `history.txt` (`none` when the file is absent, `some recs`
when it holds the given lines). -/
structure ShellState where
  cwd : List Char
  dirs : List (List Char)
  history : Option (List (List Char))
  deriving Repr, DecidableEq

/-- The operating system's response to one `lsh_launch`: `none` when
`fork()` fails, `some evs` when it succeeds and successive `waitpid` calls
deliver the statuses `evs`. -/
structure World where
  forkResult : Option (List WaitStatus)
  deriving Repr, DecidableEq

/-- A builtin handler result: the returned continuation status, the updated
process state, and the emitted output. -/
abbrev HandlerResult := Nat × ShellState × List Effect

/-- `lsh_cd`: with no `args[1]`, print a usage error; otherwise `chdir` to
`args[1]`, printing `perror("lsh")` on failure.  Always returns 1. -/
def lsh_cd (args : List (List Char)) (st : ShellState) : HandlerResult :=
  match args[1]? with
  | none => (1, st, [Effect.err "lsh: expected argument to \"cd\"".toList])
  | some d =>
    if st.dirs.contains d then (1, { st with cwd := d }, [])
    else (1, st, [Effect.err "lsh".toList])

/-- The builtin name table `builtin_str`. -/
def builtin_str : List (List Char) :=
  ["cd".toList, "help".toList, "exit".toList, "history".toList]

/-- `lsh_help`: print the banner and the registered builtin names.  Always
returns 1. -/
def lsh_help (args : List (List Char)) (st : ShellState) : HandlerResult :=
  (1, st,
    Effect.out "Kritarth Dande\x27s LSH".toList ::
    Effect.out "Type program names and arguments, and hit enter.".toList ::
    Effect.out "The following are built in:".toList ::
    builtin_str.map Effect.out ++
    [Effect.out "Use the man command for information on other programs.".toList])

/-- `lsh_exit`: no side effects, returns 0. -/
def lsh_exit (args : List (List Char)) (st : ShellState) : HandlerResult :=
  (0, st, [])

/-- `lsh_history`: with an argument, `strcasecmp` it against `"-c"`; on a
match `remove("history.txt")` (which fails exactly when the file is absent)
reporting success or the removal error, otherwise print the invalid-option
and usage messages.  With no argument, print the header and then the log
line by line, or `No history found.` when the file cannot be opened.
Always returns 1. -/
def lsh_history (args : List (List Char)) (st : ShellState) : HandlerResult :=
  match args[1]? with
  | some a =>
    if strcaseEq a "-c".toList then
      match st.history with
      | some _ =>
        (1, { st with history := none },
          [Effect.out "History cleared successfully.".toList])
      | none => (1, st, [Effect.err "Error clearing history".toList])
    else
      (1, st,
        [Effect.err ("Invalid option: ".toList ++ a),
         Effect.err "Usage: history [-c]".toList])
  | none =>
    match st.history with
    | none =>
      (1, st,
        [Effect.out "History of commands used:".toList,
         Effect.err "No history found.".toList])
    | some recs =>
      (1, st, Effect.out "History of commands used:".toList :: recs.map Effect.out)

/-- `lsh_launch`: `fork()`; when it fails (`pid < 0`) the parent prints
`perror("lsh")`; when it succeeds the child `execvp`s the argument vector
(inheriting the parent's working directory) and the parent runs the
`waitpid` loop over the delivered statuses.  Always returns 1. -/
def lsh_launch (args : List (List Char)) (st : ShellState) (w : World) :
    HandlerResult :=
  match w.forkResult with
  | none => (1, st, [Effect.err "lsh".toList])
  | some evs => (1, st, [Effect.launched args st.cwd, Effect.reaped (waitLoop evs)])

/-- The type of a builtin handler, as stored in `builtin_func`. -/
abbrev Handler := List (List Char) → ShellState → HandlerResult

/-- The handler table `builtin_func`, parallel to `builtin_str`. -/
def builtin_func : List Handler := [lsh_cd, lsh_help, lsh_exit, lsh_history]

/-- The `for (i = 0; i < lsh_num_builtins(); i++)` loop of `lsh_execute`:
compare `args[0]` with each registered name in order via `strcmp`, invoking
the first matching handler; fall through to `lsh_launch` when none
matches. -/
def dispatchAux (args : List (List Char)) (cmd : List Char) (st : ShellState)
    (w : World) : List (List Char × Handler) → HandlerResult
  | [] => lsh_launch args st w
  | (name, f) :: rest =>
    if cmd == name then f args st else dispatchAux args cmd st w rest

/-- `lsh_execute`: an empty vector is a no-op returning 1; otherwise
dispatch on the first token over the builtin tables, falling through to
`lsh_launch`. -/
def lsh_execute (args : List (List Char)) (st : ShellState) (w : World) :
    HandlerResult :=
  match args with
  | [] => (1, st, [])
  | cmd :: _ => dispatchAux args cmd st w (builtin_str.zip builtin_func)

/-- `lsh_read_line` over a finite standard-input stream; an exhausted
stream is EOF.  `getchar` results are consumed until a newline or EOF, each
of which terminates the line; the characters read so far are returned
together with the unconsumed remainder of the stream. -/
def lsh_read_line : List Char → List Char × List Char
  | [] => ([], [])
  | c :: rest =>
    if c = '\n' then ([], rest)
    else
      let p := lsh_read_line rest
      (c :: p.1, p.2)

/-- The record `fprintf(fp, "[%s] [%s] %s\n", timestamp, cwd, line)`
appends, kept without its terminating newline since `ShellState.history`
stores one entry per line. -/
def historyRecord (timestamp cwd line : List Char) : List Char :=
  "[".toList ++ timestamp ++ "] [".toList ++ cwd ++ "] ".toList ++ line

/-- The state after appending one record to `history.txt` (opening with
mode `"a"` creates the file when it is absent). -/
def appendRecord (st : ShellState) (entry : List Char) : ShellState :=
  { st with history := some ((st.history.getD []) ++ [entry]) }

/-- The result of one iteration of `lsh_loop`: the continuation status from
`lsh_execute`, the state after the iteration, the unconsumed input stream,
the history record appended this iteration (if any), and the emitted
output. -/
structure IterResult where
  status : Nat
  state : ShellState
  stdinRest : List Char
  logged : Option (List Char)
  effects : List Effect
  deriving Repr, DecidableEq

/-- One iteration of the `do { ... } while (status)` body of `lsh_loop`:
read a line; if it is non-empty, open `history.txt` for append (`openOk`
says whether that succeeds; failure silently skips logging), look up the
working directory (`getcwdRes`; on failure `perror("getcwd error")` and the
placeholder `"unknown"`), and append the record; then tokenize and
execute. -/
def lsh_loop_iter (stdin : List Char) (st : ShellState) (openOk : Bool)
    (getcwdRes : Option (List Char)) (timestamp : List Char) (w : World) :
    IterResult :=
  let line := (lsh_read_line stdin).1
  let rest := (lsh_read_line stdin).2
  let logStep : List Effect × Option (List Char) :=
    if line.isEmpty then ([], none)
    else if openOk then
      match getcwdRes with
      | some cwd => ([], some (historyRecord timestamp cwd line))
      | none =>
        ([Effect.err "getcwd error".toList],
         some (historyRecord timestamp "unknown".toList line))
    else ([], none)
  let st1 : ShellState :=
    match logStep.2 with
    | some entry => appendRecord st entry
    | none => st
  let r := lsh_execute (lsh_split_line line) st1 w
  ⟨r.1, r.2.1, rest, logStep.2, logStep.1 ++ r.2.2⟩

/-- Run at most `n` iterations of `lsh_loop` (with fixed per-iteration
logging inputs, which the claims using this only invoke on inputs where
logging does not occur).  Returns 0 when the `while (status)` check ever
fails within `n` iterations, and 1 when the loop is still running. -/
def lsh_loop_run (openOk : Bool) (getcwdRes : Option (List Char))
    (timestamp : List Char) (w : World) : Nat → List Char → ShellState → Nat
  | 0, _, _ => 1
  | n + 1, stdin, st =>
    let r := lsh_loop_iter stdin st openOk getcwdRes timestamp w
    if r.status = 0 then 0
    else lsh_loop_run openOk getcwdRes timestamp w n r.stdinRest r.state

/-- A concrete process state used by witnesses: working directory `/home`,
existing directories `/home` and `/tmp`, empty but present history file. -/
def st0 : ShellState :=
  ⟨"/home".toList, ["/home".toList, "/tmp".toList], some []⟩

/-- A concrete world used by witnesses: `fork` succeeds and the single
`waitpid` reports a normal exit. -/
def w0 : World := ⟨some [WaitStatus.exited 0]⟩

/-! ### Helper lemmas shared between claims -/

theorem lsh_cd_status (args : List (List Char)) (st : ShellState) :
    (lsh_cd args st).1 = 1 := by
  unfold lsh_cd
  split
  · rfl
  · split <;> rfl

theorem lsh_help_status (args : List (List Char)) (st : ShellState) :
    (lsh_help args st).1 = 1 := rfl

theorem lsh_history_status (args : List (List Char)) (st : ShellState) :
    (lsh_history args st).1 = 1 := by
  unfold lsh_history
  split
  · split
    · split <;> rfl
    · rfl
  · split <;> rfl

theorem lsh_launch_status (args : List (List Char)) (st : ShellState) (w : World) :
    (lsh_launch args st w).1 = 1 := by
  unfold lsh_launch
  split <;> rfl

theorem builtin_tables_zip :
    builtin_str.zip builtin_func =
      [("cd".toList, lsh_cd), ("help".toList, lsh_help),
       ("exit".toList, lsh_exit), ("history".toList, lsh_history)] := rfl

theorem cd_no_launch (args : List (List Char)) (st : ShellState) :
    ∀ e ∈ (lsh_cd args st).2.2, fromLauncher e = false := by
  intro e he
  unfold lsh_cd at he
  split at he
  · simp at he; subst he; rfl
  · split at he
    · simp at he
    · simp at he; subst he; rfl

theorem help_no_launch (args : List (List Char)) (st : ShellState) :
    ∀ e ∈ (lsh_help args st).2.2, fromLauncher e = false := by
  intro e he
  unfold lsh_help at he
  simp [builtin_str] at he
  rcases he with h | h | h | h | h | h | h | h <;> subst h <;> rfl

theorem exit_no_launch (args : List (List Char)) (st : ShellState) :
    ∀ e ∈ (lsh_exit args st).2.2, fromLauncher e = false := by
  intro e he
  simp [lsh_exit] at he

theorem history_no_launch (args : List (List Char)) (st : ShellState) :
    ∀ e ∈ (lsh_history args st).2.2, fromLauncher e = false := by
  intro e he
  unfold lsh_history at he
  split at he
  · split at he
    · split at he <;> (simp at he; subst he; rfl)
    · simp at he
      rcases he with h | h <;> subst h <;> rfl
  · split at he
    · simp at he
      rcases he with h | h <;> subst h <;> rfl
    · simp [List.mem_map] at he
      rcases he with h | ⟨r, _, h⟩ <;> subst h <;> rfl

/-! ### C1 -/

/-- Claim C1: the dispatcher's continuation status is 0 (stop) exactly when
the first token of the argument vector is `"exit"`, and 1 (continue) in
every other case — empty vector, the other builtins, and every external
launch whatever the child's outcome. -/
theorem dispatch_stop_iff_exit (args : List (List Char)) (st : ShellState)
    (w : World) :
    (lsh_execute args st w).1 =
      if args.head? = some "exit".toList then 0 else 1 := by
  cases args with
  | nil => simp [lsh_execute]
  | cons cmd rest =>
    simp only [lsh_execute, builtin_tables_zip, dispatchAux, List.head?]
    by_cases h1 : cmd = "cd".toList
    · subst h1
      rw [if_pos (by decide), if_neg (by decide)]
      exact lsh_cd_status _ _
    by_cases h2 : cmd = "help".toList
    · subst h2
      rw [if_neg (by decide), if_pos (by decide), if_neg (by decide)]
      exact lsh_help_status _ _
    by_cases h3 : cmd = "exit".toList
    · subst h3
      rw [if_neg (by decide), if_neg (by decide), if_pos (by decide),
        if_pos (by decide)]
      rfl
    by_cases h4 : cmd = "history".toList
    · subst h4
      rw [if_neg (by decide), if_neg (by decide), if_neg (by decide),
        if_pos (by decide), if_neg (by decide)]
      exact lsh_history_status _ _
    rw [if_neg (by simpa using h1), if_neg (by simpa using h2),
      if_neg (by simpa using h3), if_neg (by simpa using h4),
      if_neg (by simpa using h3)]
    exact lsh_launch_status _ _ _

/-! ### C2 -/

/-- Claim C2: a first token equal (case-sensitively) to one of the
registered names `cd`, `help`, `exit`, `history` dispatches to that
builtin's handler on the full argument vector, and such a dispatch produces
no launcher effect; the launcher is reached exactly when the vector is
non-empty and its first token is none of the four names. -/
theorem builtin_dispatch (cmd : List Char) (rest : List (List Char))
    (st : ShellState) (w : World) :
    lsh_execute ("cd".toList :: rest) st w = lsh_cd ("cd".toList :: rest) st
  ∧ lsh_execute ("help".toList :: rest) st w = lsh_help ("help".toList :: rest) st
  ∧ lsh_execute ("exit".toList :: rest) st w = lsh_exit ("exit".toList :: rest) st
  ∧ lsh_execute ("history".toList :: rest) st w =
      lsh_history ("history".toList :: rest) st
  ∧ (∀ b ∈ builtin_str, ∀ e ∈ (lsh_execute (b :: rest) st w).2.2,
      fromLauncher e = false)
  ∧ (cmd ∉ builtin_str →
      lsh_execute (cmd :: rest) st w = lsh_launch (cmd :: rest) st w) := by
  refine ⟨rfl, rfl, rfl, rfl, ?_, ?_⟩
  · intro b hb
    simp only [builtin_str, List.mem_cons, List.not_mem_nil, or_false] at hb
    rcases hb with h | h | h | h <;> subst h
    · exact cd_no_launch ("cd".toList :: rest) st
    · exact help_no_launch ("help".toList :: rest) st
    · exact exit_no_launch ("exit".toList :: rest) st
    · exact history_no_launch ("history".toList :: rest) st
  · intro h
    simp only [builtin_str, List.mem_cons, List.not_mem_nil, or_false,
      not_or] at h
    obtain ⟨h1, h2, h3, h4⟩ := h
    simp only [lsh_execute, builtin_tables_zip, dispatchAux]
    rw [if_neg (by simpa using h1), if_neg (by simpa using h2),
      if_neg (by simpa using h3), if_neg (by simpa using h4)]

/-- Witness for C2 at the concrete non-builtin command `ls`. -/
theorem builtin_dispatch_witness :
    "ls".toList ∉ builtin_str
  ∧ lsh_execute ["ls".toList] st0 w0 = lsh_launch ["ls".toList] st0 w0 :=
  ⟨by decide, (builtin_dispatch "ls".toList [] st0 w0).2.2.2.2.2 (by decide)⟩

/-! ### C3 -/

theorem splitAux_eq_go (l : List Char) : ∀ acc,
    splitAux acc l =
      (List.splitOnP.go isDelim l acc).filter (fun t => !t.isEmpty) := by
  induction l with
  | nil =>
    intro acc
    cases acc with
    | nil => rfl
    | cons a t => simp [splitAux, List.splitOnP.go]
  | cons c t ih =>
    intro acc
    by_cases h : isDelim c = true
    · simp only [splitAux, List.splitOnP.go, h, if_true, List.filter_cons]
      cases acc with
      | nil => simp [ih]
      | cons a as => simp [ih]
    · simp only [splitAux, List.splitOnP.go, h, if_false]
      exact ih (c :: acc)

theorem splitAux_tokens (l : List Char) : ∀ acc,
    (∀ c ∈ acc, isDelim c = false) →
    ∀ tok ∈ splitAux acc l, tok ≠ [] ∧ ∀ c ∈ tok, isDelim c = false := by
  induction l with
  | nil =>
    intro acc hacc tok ht
    simp only [splitAux] at ht
    split at ht
    · simp at ht
    · next hne =>
      simp at ht
      subst ht
      refine ⟨by simpa using (by simpa using hne : acc ≠ []), ?_⟩
      intro c hc
      exact hacc c (List.mem_reverse.mp hc)
  | cons c tl ih =>
    intro acc hacc tok ht
    simp only [splitAux] at ht
    by_cases hc : isDelim c = true
    · rw [if_pos hc] at ht
      split at ht
      · exact ih [] (by simp) tok ht
      · next hne =>
        rcases List.mem_cons.mp ht with h | h
        · subst h
          refine ⟨by simpa using (by simpa using hne : acc ≠ []), ?_⟩
          intro x hx
          exact hacc x (List.mem_reverse.mp hx)
        · exact ih [] (by simp) tok h
    · rw [if_neg hc] at ht
      refine ih (c :: acc) ?_ tok ht
      intro x hx
      rcases List.mem_cons.mp hx with h | h
      · subst h; simpa using hc
      · exact hacc x h

theorem splitAux_all_delim (l : List Char) (h : ∀ c ∈ l, isDelim c = true) :
    splitAux [] l = [] := by
  induction l with
  | nil => rfl
  | cons c t ih =>
    have hc : isDelim c = true := h c (List.mem_cons_self c t)
    simp only [splitAux, hc, if_true, List.isEmpty_nil]
    exact ih (fun x hx => h x (List.mem_cons_of_mem c hx))

/-- Claim C3: the tokenizer returns exactly the maximal delimiter-free
substrings of the line (splitting on the delimiter set with empty tokens
collapsed, so no empty token is emitted and every token is delimiter-free);
a line made only of delimiter characters (the empty line included) yields
the zero-length vector, on which the dispatcher signals continue with no
state change and no effect — no builtin invoked, no process launched. -/
theorem split_line_correct (line : List Char) :
    lsh_split_line line = tokensSpec line
  ∧ (∀ tok ∈ lsh_split_line line, tok ≠ [] ∧ ∀ c ∈ tok, isDelim c = false)
  ∧ ((∀ c ∈ line, isDelim c = true) →
      lsh_split_line line = [] ∧
      ∀ st w, lsh_execute (lsh_split_line line) st w = (1, st, [])) := by
  refine ⟨?_, ?_, ?_⟩
  · unfold lsh_split_line tokensSpec List.splitOnP
    exact splitAux_eq_go line []
  · exact splitAux_tokens line [] (by simp)
  · intro h
    have h0 : lsh_split_line line = [] := splitAux_all_delim line h
    exact ⟨h0, fun st w => by rw [h0]; rfl⟩

/-- Witness for C3 at the concrete whitespace-only line of two spaces and a
tab. -/
theorem split_line_correct_witness :
    (∀ c ∈ "  \t".toList, isDelim c = true)
  ∧ lsh_split_line "  \t".toList = []
  ∧ lsh_execute (lsh_split_line "  \t".toList) st0 w0 = (1, st0, []) := by
  refine ⟨by decide, ?_, ?_⟩
  · exact ((split_line_correct "  \t".toList).2.2 (by decide)).1
  · exact ((split_line_correct "  \t".toList).2.2 (by decide)).2 st0 w0

/-! ### C4 -/

theorem waitLoop_stopped (sig : Nat) (evs : List WaitStatus) :
    waitLoop (WaitStatus.stopped sig :: evs) = waitLoop evs := rfl

theorem waitLoop_terminal (evs : List WaitStatus) :
    ∀ s, waitLoop evs = some s → WIFEXITED s = true ∨ WIFSIGNALED s = true := by
  induction evs with
  | nil => intro s h; simp [waitLoop] at h
  | cons e rest ih =>
    intro s h
    simp only [waitLoop] at h
    split at h
    · next he =>
      cases h
      simpa [Bool.or_eq_true] using he
    · exact ih s h

/-- Claim C4: the parent's wait loop runs until the child exits normally or
is terminated by a signal — any prefix of stop events is consumed without
ending the wait, a stop event alone never ends it, and any delivered result
is an exit or a signal termination; when `fork` itself fails the parent
reports the error and `lsh_launch` still returns continue, as it does for
every outcome. -/
theorem launch_wait (args : List (List Char)) (st : ShellState)
    (stops : List WaitStatus) (term : WaitStatus)
    (hs : ∀ s ∈ stops, WIFSTOPPED s = true)
    (ht : WIFEXITED term = true ∨ WIFSIGNALED term = true) :
    waitLoop (stops ++ [term]) = some term
  ∧ (∀ sig evs, waitLoop (WaitStatus.stopped sig :: evs) = waitLoop evs)
  ∧ (∀ evs s, waitLoop evs = some s → WIFEXITED s = true ∨ WIFSIGNALED s = true)
  ∧ lsh_launch args st ⟨none⟩ = (1, st, [Effect.err "lsh".toList])
  ∧ (∀ w, (lsh_launch args st w).1 = 1) := by
  refine ⟨?_, fun sig evs => rfl, waitLoop_terminal, rfl, lsh_launch_status args st⟩
  induction stops with
  | nil =>
    simp only [List.nil_append, waitLoop]
    rw [if_pos (by simpa [Bool.or_eq_true] using ht)]
  | cons e rest ih =>
    have he : WIFSTOPPED e = true := hs e (List.mem_cons_self e rest)
    have hrest : ∀ s ∈ rest, WIFSTOPPED s = true :=
      fun s h => hs s (List.mem_cons_of_mem e h)
    cases e with
    | exited c => simp [WIFSTOPPED] at he
    | signaled c => simp [WIFSTOPPED] at he
    | stopped c =>
      rw [List.cons_append, waitLoop_stopped]
      exact ih hrest

/-- Witness for C4: one stop event followed by a normal exit, at a child
launched from the concrete state. -/
theorem launch_wait_witness :
    (∀ s ∈ [WaitStatus.stopped 19], WIFSTOPPED s = true)
  ∧ (WIFEXITED (WaitStatus.exited 0) = true ∨
      WIFSIGNALED (WaitStatus.exited 0) = true)
  ∧ waitLoop ([WaitStatus.stopped 19] ++ [WaitStatus.exited 0]) =
      some (WaitStatus.exited 0)
  ∧ lsh_launch ["ls".toList] st0 ⟨none⟩ = (1, st0, [Effect.err "lsh".toList])
  ∧ (lsh_launch ["ls".toList] st0 w0).1 = 1 := by
  have h := launch_wait ["ls".toList] st0 [WaitStatus.stopped 19]
    (WaitStatus.exited 0) (by decide) (by decide)
  exact ⟨by decide, by decide, h.1, h.2.2.2.1, h.2.2.2.2 w0⟩

/-! ### C5 -/

/-- Counterexample to claim C5 as stated: the modifier `-C` is not the
string `-c`, yet `history -C` clears the log (the code compares with
`strcasecmp`) instead of reporting an invalid-usage error. -/
theorem history_exact_dash_c_cex :
    "-C".toList ≠ "-c".toList
  ∧ lsh_history ["history".toList, "-C".toList] st0 =
      (1, { st0 with history := none },
        [Effect.out "History cleared successfully.".toList]) := by
  exact ⟨by decide, rfl⟩

/-- Claim C5 as amended: a modifier that equals `-c` under case-insensitive
comparison (so `-c` and `-C`) removes the persisted log, reporting success,
or reports the removal error when the file is absent; any other modifier is
reported as an invalid-usage error; in every case the handler returns
continue (1). -/
theorem history_modifier (a : List Char) (rest : List (List Char))
    (st : ShellState) :
    (strcaseEq a "-c".toList = true → st.history.isSome = true →
      lsh_history ("history".toList :: a :: rest) st =
        (1, { st with history := none },
          [Effect.out "History cleared successfully.".toList]))
  ∧ (strcaseEq a "-c".toList = true → st.history = none →
      lsh_history ("history".toList :: a :: rest) st =
        (1, st, [Effect.err "Error clearing history".toList]))
  ∧ (strcaseEq a "-c".toList = false →
      lsh_history ("history".toList :: a :: rest) st =
        (1, st,
          [Effect.err ("Invalid option: ".toList ++ a),
           Effect.err "Usage: history [-c]".toList]))
  ∧ (lsh_history ("history".toList :: a :: rest) st).1 = 1 := by
  refine ⟨?_, ?_, ?_, lsh_history_status _ _⟩
  · intro hca hsome
    unfold lsh_history
    simp only [List.getElem?_cons_succ, List.getElem?_cons_zero,
      Option.some.injEq, hca, if_true]
    cases hh : st.history with
    | none => rw [hh] at hsome; simp at hsome
    | some recs => rfl
  · intro hca hnone
    unfold lsh_history
    simp only [List.getElem?_cons_succ, List.getElem?_cons_zero, hca, if_true]
    rw [hnone]
  · intro hca
    unfold lsh_history
    simp only [List.getElem?_cons_succ, List.getElem?_cons_zero, hca,
      Bool.false_eq_true, if_false]

/-- Witness for the amended C5: clearing with `-C`, failing to clear on an
absent file, and rejecting `-x`. -/
theorem history_modifier_witness :
    lsh_history ["history".toList, "-C".toList] st0 =
      (1, { st0 with history := none },
        [Effect.out "History cleared successfully.".toList])
  ∧ lsh_history ["history".toList, "-c".toList] { st0 with history := none } =
      (1, { st0 with history := none },
        [Effect.err "Error clearing history".toList])
  ∧ lsh_history ["history".toList, "-x".toList] st0 =
      (1, st0,
        [Effect.err ("Invalid option: ".toList ++ "-x".toList),
         Effect.err "Usage: history [-c]".toList]) := by
  refine ⟨?_, ?_, ?_⟩
  · exact (history_modifier "-C".toList [] st0).1 (by decide) (by decide)
  · exact (history_modifier "-c".toList [] { st0 with history := none }).2.1
      (by decide) rfl
  · exact (history_modifier "-x".toList [] st0).2.2.1 (by decide)

/-! ### C6 -/

/-- Claim C6: `cd` with no second argument reports a usage error, leaves
the working directory (indeed the whole process state) unchanged and
signals continue; `cd` to an existing directory changes the working
directory — so every subsequently launched child inherits the new
directory — and still signals continue. -/
theorem cd_behavior (st : ShellState) (d : List Char) (rest : List (List Char))
    (hd : st.dirs.contains d = true) :
    lsh_cd ["cd".toList] st =
      (1, st, [Effect.err "lsh: expected argument to \"cd\"".toList])
  ∧ lsh_cd ("cd".toList :: d :: rest) st = (1, { st with cwd := d }, [])
  ∧ (∀ largs evs,
      lsh_launch largs (lsh_cd ("cd".toList :: d :: rest) st).2.1 ⟨some evs⟩ =
        (1, { st with cwd := d },
          [Effect.launched largs d, Effect.reaped (waitLoop evs)])) := by
  have h2 : lsh_cd ("cd".toList :: d :: rest) st = (1, { st with cwd := d }, []) := by
    unfold lsh_cd
    simp only [List.getElem?_cons_succ, List.getElem?_cons_zero, hd, if_true]
  refine ⟨rfl, h2, ?_⟩
  intro largs evs
  rw [h2]
  rfl

/-- Witness for C6 at the existing directory `/tmp`. -/
theorem cd_behavior_witness :
    st0.dirs.contains "/tmp".toList = true
  ∧ lsh_cd ["cd".toList] st0 =
      (1, st0, [Effect.err "lsh: expected argument to \"cd\"".toList])
  ∧ lsh_cd ["cd".toList, "/tmp".toList] st0 = (1, { st0 with cwd := "/tmp".toList }, [])
  ∧ lsh_launch ["pwd".toList] (lsh_cd ["cd".toList, "/tmp".toList] st0).2.1
      ⟨some [WaitStatus.exited 0]⟩ =
      (1, { st0 with cwd := "/tmp".toList },
        [Effect.launched ["pwd".toList] "/tmp".toList,
         Effect.reaped (waitLoop [WaitStatus.exited 0])]) := by
  have h := cd_behavior st0 "/tmp".toList [] (by decide)
  exact ⟨by decide, h.1, h.2.1, h.2.2 ["pwd".toList] [WaitStatus.exited 0]⟩

/-! ### Line reading and the loop body -/

theorem read_line_newline (line rest : List Char) (h : '\n' ∉ line) :
    lsh_read_line (line ++ '\n' :: rest) = (line, rest) := by
  induction line with
  | nil => simp [lsh_read_line]
  | cons c t ih =>
    have hc : ¬ c = '\n' := fun hc => h (hc ▸ List.mem_cons_self c t)
    simp only [List.cons_append, lsh_read_line, if_neg hc, List.append_eq]
    rw [ih (fun hm => h (List.mem_cons_of_mem c hm))]

theorem read_line_eof (s : List Char) (h : '\n' ∉ s) :
    lsh_read_line s = (s, []) := by
  induction s with
  | nil => rfl
  | cons c t ih =>
    have hc : ¬ c = '\n' := fun hc => h (hc ▸ List.mem_cons_self c t)
    simp only [lsh_read_line, if_neg hc]
    rw [ih (fun hm => h (List.mem_cons_of_mem c hm))]

theorem loop_iter_nonempty_line (line rest ts : List Char) (st : ShellState)
    (w : World) (hne : line ≠ []) (hnl : '\n' ∉ line) :
    (lsh_loop_iter (line ++ '\n' :: rest) st true none ts w =
      ⟨(lsh_execute (lsh_split_line line)
          (appendRecord st (historyRecord ts "unknown".toList line)) w).1,
       (lsh_execute (lsh_split_line line)
          (appendRecord st (historyRecord ts "unknown".toList line)) w).2.1,
       rest,
       some (historyRecord ts "unknown".toList line),
       Effect.err "getcwd error".toList ::
         (lsh_execute (lsh_split_line line)
            (appendRecord st (historyRecord ts "unknown".toList line)) w).2.2⟩)
  ∧ (∀ cwd, lsh_loop_iter (line ++ '\n' :: rest) st true (some cwd) ts w =
      ⟨(lsh_execute (lsh_split_line line)
          (appendRecord st (historyRecord ts cwd line)) w).1,
       (lsh_execute (lsh_split_line line)
          (appendRecord st (historyRecord ts cwd line)) w).2.1,
       rest,
       some (historyRecord ts cwd line),
       (lsh_execute (lsh_split_line line)
          (appendRecord st (historyRecord ts cwd line)) w).2.2⟩)
  ∧ (∀ g, lsh_loop_iter (line ++ '\n' :: rest) st false g ts w =
      ⟨(lsh_execute (lsh_split_line line) st w).1,
       (lsh_execute (lsh_split_line line) st w).2.1,
       rest, none,
       (lsh_execute (lsh_split_line line) st w).2.2⟩) := by
  have h0 : line.isEmpty = false := by
    cases line with
    | nil => exact absurd rfl hne
    | cons c t => rfl
  refine ⟨?_, ?_, ?_⟩
  · unfold lsh_loop_iter
    rw [read_line_newline line rest hnl]
    simp only [h0, Bool.false_eq_true, if_false, if_true]
    rfl
  · intro cwd
    unfold lsh_loop_iter
    rw [read_line_newline line rest hnl]
    simp only [h0, Bool.false_eq_true, if_false, if_true]
    rfl
  · intro g
    unfold lsh_loop_iter
    rw [read_line_newline line rest hnl]
    simp only [h0, Bool.false_eq_true, if_false]
    rfl

/-! ### C7 -/

/-- Counterexample to claim C7 as stated: on the non-empty line `ls` with
the log open succeeding and the working-directory lookup failing, the loop
body is not silent — `perror("getcwd error")` emits a diagnostic. -/
theorem getcwd_diag_cex :
    Effect.err "getcwd error".toList ∈
      (lsh_loop_iter ("ls".toList ++ ['\n']) st0 true none "ts".toList w0).effects
  ∧ (lsh_loop_iter ("ls".toList ++ ['\n']) st0 true none "ts".toList w0).logged =
      some (historyRecord "ts".toList "unknown".toList "ls".toList) := by
  exact ⟨by decide, rfl⟩

/-- Claim C7 as amended: for a non-empty line, a working-directory lookup
failure during history logging is degraded — the placeholder `unknown` is
substituted into the record and the loop is not aborted (the iteration's
status is exactly the dispatcher's) — but it is not silent: the diagnostic
`getcwd error` is emitted via `perror`; a failure to open the history log,
by contrast, silently skips logging for that line. -/
theorem log_failure_degradation (line rest ts : List Char) (st : ShellState)
    (w : World) (hne : line ≠ []) (hnl : '\n' ∉ line) :
    ((lsh_loop_iter (line ++ '\n' :: rest) st true none ts w).logged =
        some (historyRecord ts "unknown".toList line)
     ∧ (lsh_loop_iter (line ++ '\n' :: rest) st true none ts w).effects =
         Effect.err "getcwd error".toList ::
           (lsh_execute (lsh_split_line line)
              (appendRecord st (historyRecord ts "unknown".toList line)) w).2.2
     ∧ (lsh_loop_iter (line ++ '\n' :: rest) st true none ts w).status =
         (lsh_execute (lsh_split_line line)
            (appendRecord st (historyRecord ts "unknown".toList line)) w).1)
  ∧ (∀ g, (lsh_loop_iter (line ++ '\n' :: rest) st false g ts w).logged = none
     ∧ (lsh_loop_iter (line ++ '\n' :: rest) st false g ts w).effects =
         (lsh_execute (lsh_split_line line) st w).2.2) := by
  obtain ⟨h1, -, h3⟩ := loop_iter_nonempty_line line rest ts st w hne hnl
  exact ⟨⟨by rw [h1], by rw [h1], by rw [h1]⟩,
    fun g => ⟨by rw [h3 g], by rw [h3 g]⟩⟩

/-- Witness for the amended C7 at the concrete line `ls`. -/
theorem log_failure_degradation_witness :
    "ls".toList ≠ []
  ∧ '\n' ∉ "ls".toList
  ∧ (lsh_loop_iter ("ls".toList ++ '\n' :: []) st0 true none "ts".toList w0).logged =
      some (historyRecord "ts".toList "unknown".toList "ls".toList)
  ∧ (lsh_loop_iter ("ls".toList ++ '\n' :: []) st0 false none "ts".toList w0).logged =
      none := by
  have h := log_failure_degradation "ls".toList [] "ts".toList st0 w0
    (by decide) (by decide)
  exact ⟨by decide, by decide, h.1.1, (h.2 none).1⟩

/-! ### C8 -/

/-- Claim C8: end-of-input behaves like a newline — the characters read so
far come back as an ordinary line (the whole delimiter-free stream when no
newline occurs, just as a newline would have delivered them), and from an
exhausted input stream the REPL never stops within any number of
iterations: only the `exit` builtin can end the loop. -/
theorem eof_behavior (s t : List Char) (h : '\n' ∉ s) :
    lsh_read_line s = (s, [])
  ∧ lsh_read_line (s ++ '\n' :: t) = (s, t)
  ∧ (∀ openOk g ts w n st, lsh_loop_run openOk g ts w n [] st = 1) := by
  refine ⟨read_line_eof s h, read_line_newline s t h, ?_⟩
  intro openOk g ts w n
  induction n with
  | zero => intro st; rfl
  | succ n ih =>
    intro st
    have hit : lsh_loop_iter [] st openOk g ts w = ⟨1, st, [], none, []⟩ := rfl
    show (let r := lsh_loop_iter [] st openOk g ts w;
          if r.status = 0 then 0
          else lsh_loop_run openOk g ts w n r.stdinRest r.state) = 1
    rw [hit]
    exact ih st

/-- Witness for C8 at the concrete stream `ab` with no newline. -/
theorem eof_behavior_witness :
    '\n' ∉ "ab".toList
  ∧ lsh_read_line "ab".toList = ("ab".toList, [])
  ∧ lsh_read_line ("ab".toList ++ '\n' :: "c".toList) = ("ab".toList, "c".toList)
  ∧ lsh_loop_run true none [] w0 5 [] st0 = 1 := by
  have h := eof_behavior "ab".toList "c".toList (by decide)
  exact ⟨by decide, h.1, h.2.1, h.2.2 true none [] w0 5 st0⟩

/-! ### C9 -/

/-- Claim C9: a history record is appended exactly when the raw line is
non-empty, not when it yields a token: a non-empty line of delimiter
characters is logged verbatim inside its record, yet tokenizes to the
zero-length vector and dispatches as a no-op (status 1, no effects); the
empty line is not logged. -/
theorem log_on_nonempty_line (line rest ts cwd : List Char) (st : ShellState)
    (w : World) (hne : line ≠ []) (hnl : '\n' ∉ line)
    (hdel : ∀ c ∈ line, isDelim c = true) :
    (lsh_loop_iter (line ++ '\n' :: rest) st true (some cwd) ts w).logged =
        some (historyRecord ts cwd line)
  ∧ (lsh_loop_iter (line ++ '\n' :: rest) st true (some cwd) ts w).state =
        appendRecord st (historyRecord ts cwd line)
  ∧ lsh_split_line line = []
  ∧ (lsh_loop_iter (line ++ '\n' :: rest) st true (some cwd) ts w).status = 1
  ∧ (lsh_loop_iter (line ++ '\n' :: rest) st true (some cwd) ts w).effects = []
  ∧ (∀ st2, (lsh_loop_iter ('\n' :: rest) st2 true (some cwd) ts w).logged = none) := by
  obtain ⟨-, h2, -⟩ := loop_iter_nonempty_line line rest ts st w hne hnl
  have hsplit : lsh_split_line line = [] := splitAux_all_delim line hdel
  have hex : lsh_execute (lsh_split_line line)
      (appendRecord st (historyRecord ts cwd line)) w =
      (1, appendRecord st (historyRecord ts cwd line), []) := by
    rw [hsplit]; rfl
  refine ⟨by rw [h2 cwd], ?_, hsplit, ?_, ?_, fun st2 => rfl⟩
  · rw [h2 cwd, hex]
  · rw [h2 cwd, hex]
  · rw [h2 cwd, hex]

/-- Witness for C9 at the concrete line of three spaces. -/
theorem log_on_nonempty_line_witness :
    "   ".toList ≠ []
  ∧ (∀ c ∈ "   ".toList, isDelim c = true)
  ∧ (lsh_loop_iter ("   ".toList ++ '\n' :: []) st0 true (some "/home".toList)
      "ts".toList w0).logged =
      some (historyRecord "ts".toList "/home".toList "   ".toList)
  ∧ lsh_split_line "   ".toList = []
  ∧ (lsh_loop_iter ("   ".toList ++ '\n' :: []) st0 true (some "/home".toList)
      "ts".toList w0).status = 1 := by
  have h := log_on_nonempty_line "   ".toList [] "ts".toList "/home".toList st0 w0
    (by decide) (by decide) (by decide)
  exact ⟨by decide, by decide, h.1, h.2.2.1, h.2.2.2.1⟩

/-! ### C10 -/

/-- Claim C10: the `cd` and `history` handlers read only the first two
entries of the argument vector — two vectors agreeing on entries 0 and 1
produce identical results, so extra trailing arguments are silently
ignored. -/
theorem handlers_first_two_args (args1 args2 : List (List Char))
    (st : ShellState) (h0 : args1[0]? = args2[0]?) (h1 : args1[1]? = args2[1]?) :
    lsh_cd args1 st = lsh_cd args2 st
  ∧ lsh_history args1 st = lsh_history args2 st := by
  unfold lsh_cd lsh_history
  rw [h1]
  exact ⟨rfl, rfl⟩

/-- Witness for C10: `cd a b` versus `cd a`, and `history -c extra` versus
`history -c`. -/
theorem handlers_first_two_args_witness :
    (["cd".toList, "a".toList, "b".toList][0]? = ["cd".toList, "a".toList][0]?)
  ∧ (["cd".toList, "a".toList, "b".toList][1]? = ["cd".toList, "a".toList][1]?)
  ∧ lsh_cd ["cd".toList, "a".toList, "b".toList] st0 =
      lsh_cd ["cd".toList, "a".toList] st0
  ∧ lsh_history ["history".toList, "-c".toList, "x".toList] st0 =
      lsh_history ["history".toList, "-c".toList] st0 := by
  refine ⟨rfl, rfl, ?_, ?_⟩
  · exact (handlers_first_two_args
      ["cd".toList, "a".toList, "b".toList] ["cd".toList, "a".toList] st0 rfl rfl).1
  · exact (handlers_first_two_args
      ["history".toList, "-c".toList, "x".toList] ["history".toList, "-c".toList]
      st0 rfl rfl).2
